import Mathlib

/-!
# Verification of the ARC language-model forward pass

A shallow embedding of `ArcLmModel` (src/deprecated/models/arc.py).
Boolean attention masks are lists of rows (`List (List Bool)`); a batch row
of token ids is a `List ℤ` (torch `LongTensor` entries); scalar head outputs
are rationals.  The transformer backbone, the lm head and the categorical
sampler are opaque to the properties verified here and enter as function
parameters constrained only by shape (length) preservation.
-/

namespace Arc

/-! ## Boolean matrices, mirroring the torch tensor operations used -/

/-- `torch.ones(L, L, dtype=torch.bool)`. -/
def onesMatrix (L : ℕ) : List (List Bool) :=
  List.replicate L (List.replicate L true)

/-- `torch.triu(M, diagonal=d)`: keep entry (i,j) iff `d ≤ j - i`, else `False`. -/
def triu (d : ℤ) (M : List (List Bool)) : List (List Bool) :=
  (List.range M.length).map fun i =>
    (List.range (M.getD i []).length).map fun j =>
      (M.getD i []).getD j false && decide (d ≤ (j : ℤ) - (i : ℤ))

/-- `torch.eye(L, dtype=torch.bool)`. -/
def eyeMatrix (L : ℕ) : List (List Bool) :=
  (List.range L).map fun i => (List.range L).map fun j => decide (i = j)

/-- `~M`, elementwise boolean negation. -/
def notMatrix (M : List (List Bool)) : List (List Bool) :=
  M.map fun row => row.map fun x => !x

/-- `torch.cat([A, B], dim=1)`: rowwise concatenation. -/
def catDim1 (A B : List (List Bool)) : List (List Bool) :=
  List.zipWith (fun r s => r ++ s) A B

/-- `torch.cat([A, B], dim=0)`: stack rows. -/
def catDim0 (A B : List (List Bool)) : List (List Bool) := A ++ B

/-- Entry (i, j) of a boolean matrix (out-of-range reads give `false`,
used only under explicit bounds hypotheses). -/
def entry (M : List (List Bool)) (i j : ℕ) : Bool :=
  (M.getD i []).getD j false

/-- `ArcLmModel._get_arc_mask` (arc.py lines 33-57), as a function of the
sequence length `L` and the `cached` flag.  `True` means "blocked". -/
def get_arc_mask (L : ℕ) (cached : Bool) : List (List Bool) :=
  let full_mask := onesMatrix L
  let nw := triu 1 full_mask   -- self attending
  let sw := triu 0 full_mask   -- cross attending
  let ne := full_mask          -- empty
  let se := notMatrix (eyeMatrix L)  -- only self
  if cached then catDim1 sw se
  else catDim0 (catDim1 nw ne) (catDim1 sw se)

/-- `ArcLmModel._get_arc_position_ids` (arc.py lines 60-75). -/
def get_arc_position_ids (L : ℕ) (cached : Bool) : List ℤ :=
  let position_ids := (List.range L).map fun i => (i : ℤ)
  if cached then position_ids
  else position_ids ++ position_ids

/-! ## The forward pass (`ArcLmModel.forward`, arc.py lines 78-168)

Modelled per batch row: a row of token ids is a `List ℤ`.  The transformer
backbone composed with the scalar `arc_head` is opaque: `score1` gives the
per-position scalar head outputs of the first pass on the real input, and
`score2` gives those of the second (cached) pass as a function of the cached
context and the arc input ids.  The categorical draw `dist.sample()` is
abstracted as a function `sample` of the input (the logits it samples from
are a function of the input; the randomness is the choice of `sample`). -/

/-- Slice assignment `dst[:k] = src` performed on `dst`, returning the new
value (the source guarantees `src` has length `k`). -/
def sliceAssign (dst src : List ℤ) (k : ℕ) : List ℤ :=
  src.take k ++ dst.drop k

/-- Debug-mode negative ids (arc.py lines 113-115):
`neg_ids = input_ids.clone()` then `neg_ids[:, :-1] = input_ids[:, 1:]`. -/
def debugNegIds (input_ids : List ℤ) : List ℤ :=
  sliceAssign input_ids (input_ids.drop 1) (input_ids.length - 1)

/-- Arc input ids (arc.py lines 118-124):
`arc_ids = torch.cat([input_ids[:, :1], neg_ids[:, :-1]], dim=1)`. -/
def arcIds (input_ids neg_ids : List ℤ) : List ℤ :=
  input_ids.take 1 ++ neg_ids.dropLast

/-- Arc targets (arc.py lines 151-162):
`torch.ones(2L)`, then `arc_targets[:, :L] = 0` (so replicate 0 ++ replicate 1),
then `arc_targets[:, 0] = -1`, `arc_targets[:, L] = -1`, then
`torch.masked_fill(arc_targets, torch.cat([input_ids, input_ids], dim=1) == pad_token_id, -1)`. -/
def arcTargets (input_ids : List ℤ) (pad_token_id : ℤ) : List ℤ :=
  let L := input_ids.length
  let base : List ℤ := List.replicate L 0 ++ List.replicate L 1
  let bounded := (base.set 0 (-1)).set L (-1)
  List.zipWith (fun t x => if x = pad_token_id then (-1 : ℤ) else t)
    bounded (input_ids ++ input_ids)

/-- Arc predictions (arc.py lines 145-149): from the scalar head outputs `s`,
`arc_preds = torch.stack([-arc_preds/2, arc_preds/2], dim=-1)`; the pair type
is the trailing dimension of size 2 (class 0 = real, class 1 = fake). -/
def arcPreds (s : List ℚ) : List (ℚ × ℚ) :=
  s.map fun x => (-x / 2, x / 2)

/-- Outputs of one forward call relevant to the arc objective (the lm logits
are opaque data and omitted); `neg_ids` and `arc_ids` are the intermediate
tensors of arc.py lines 110-124, kept for specification purposes. -/
structure ArcForwardOut where
  neg_ids : List ℤ
  arc_ids : List ℤ
  arc_preds : List (ℚ × ℚ)
  arc_targets : List ℤ

/-- `ArcLmModel.forward` on one batch row.  In debug mode the sampled draw is
discarded and replaced by the left-shifted input (arc.py lines 113-115). -/
def forward (score1 : List ℤ → List ℚ) (score2 : List ℤ → List ℤ → List ℚ)
    (sample : List ℤ → List ℤ) (input_ids : List ℤ) (pad_token_id : ℤ)
    (debug : Bool) : ArcForwardOut :=
  let neg_ids := if debug then debugNegIds input_ids else sample input_ids
  let arc_ids := arcIds input_ids neg_ids
  { neg_ids := neg_ids
    arc_ids := arc_ids
    arc_preds := arcPreds (score1 input_ids ++ score2 input_ids arc_ids)
    arc_targets := arcTargets input_ids pad_token_id }

/-! ## Heap model for tensor aliasing

The negative-sampling block (arc.py lines 110-115) performs an in-place
slice assignment.  To state that the caller's `input_ids` tensor is never
mutated, tensors live in an explicit heap addressed by allocation order, so
that aliasing is observable: had the code written `neg_ids = input_ids`
instead of `neg_ids = input_ids.clone()`, the slice assignment would have
changed the value at the input's address. -/

abbrev Heap := List (List ℤ)

def heapRead (h : Heap) (a : ℕ) : List ℤ := h.getD a []

def heapWrite (h : Heap) (a : ℕ) (v : List ℤ) : Heap := h.set a v

def heapAlloc (h : Heap) (v : List ℤ) : ℕ × Heap := (h.length, h ++ [v])

/-- The negative-sampling block of `forward` (arc.py lines 110-115) with
tensor allocation explicit: `dist.sample()` allocates a fresh tensor holding
the draw `sampled`; in debug mode `input_ids.clone()` allocates a copy of the
input and `neg_ids[:, :-1] = input_ids[:, 1:]` mutates that copy in place.
Returns the address of the final `neg_ids` and the resulting heap. -/
def negSampleStep (h : Heap) (inputAddr : ℕ) (sampled : List ℤ) (debug : Bool) :
    ℕ × Heap :=
  let al := heapAlloc h sampled
  if debug then
    let cl := heapAlloc al.2 (heapRead al.2 inputAddr)
    let cur := heapRead cl.2 cl.1
    (cl.1, heapWrite cl.2 cl.1
      (sliceAssign cur ((heapRead cl.2 inputAddr).drop 1) (cur.length - 1)))
  else (al.1, al.2)

/-! ## Concrete instantiations of the opaque collaborators, used in witnesses -/

def testScore1 : List ℤ → List ℚ := fun l => List.replicate l.length 3

def testScore2 : List ℤ → List ℤ → List ℚ := fun _ l => List.replicate l.length 5

def testSample : List ℤ → List ℤ := fun l => l.map fun x => x + 1

/-! ### Index lemmas for the matrix building blocks -/

theorem getD_rangeMap {α : Type} (n : ℕ) (f : ℕ → α) (d : α) (i : ℕ) (hi : i < n) :
    (((List.range n).map f).getD i d) = f i := by
  simp [List.getD_eq_getElem?_getD, List.getElem?_map, List.getElem?_range, hi]

theorem getD_replicate' {α : Type} (n : ℕ) (a d : α) (i : ℕ) (hi : i < n) :
    ((List.replicate n a).getD i d) = a := by
  simp [List.getD_eq_getElem?_getD, List.getElem?_replicate, hi]

theorem onesMatrix_length (L : ℕ) : (onesMatrix L).length = L := by
  simp [onesMatrix]

theorem onesMatrix_getD (L i : ℕ) (hi : i < L) :
    (onesMatrix L).getD i [] = List.replicate L true := by
  simpa [onesMatrix] using getD_replicate' L (List.replicate L true) [] i hi

theorem entry_onesMatrix (L i j : ℕ) (hi : i < L) (hj : j < L) :
    entry (onesMatrix L) i j = true := by
  rw [entry, onesMatrix_getD L i hi]
  exact getD_replicate' L true false j hj

theorem entry_triu_onesMatrix (d : ℤ) (L i j : ℕ) (hi : i < L) (hj : j < L) :
    entry (triu d (onesMatrix L)) i j = decide (d ≤ (j : ℤ) - (i : ℤ)) := by
  rw [entry, triu, onesMatrix_length]
  rw [getD_rangeMap L _ [] i hi]
  rw [onesMatrix_getD L i hi, List.length_replicate]
  rw [getD_rangeMap L _ false j hj]
  rw [getD_replicate' L true false j hj]
  simp

theorem entry_not_eyeMatrix (L i j : ℕ) (hi : i < L) (hj : j < L) :
    entry (notMatrix (eyeMatrix L)) i j = !(decide (i = j)) := by
  rw [entry, notMatrix, eyeMatrix]
  rw [List.map_map]
  rw [getD_rangeMap L _ [] i hi]
  simp only [Function.comp]
  rw [List.map_map]
  rw [getD_rangeMap L _ false j hj]
  simp [Function.comp]

theorem triu_onesMatrix_getD (d : ℤ) (L i : ℕ) (hi : i < L) :
    (triu d (onesMatrix L)).getD i [] =
      (List.range L).map fun (j : ℕ) => true && decide (d ≤ (j : ℤ) - (i : ℤ)) := by
  rw [triu, onesMatrix_length, getD_rangeMap L _ [] i hi, onesMatrix_getD L i hi,
    List.length_replicate]
  refine List.map_congr_left ?_
  intro j hj
  rw [getD_replicate' L true false j (List.mem_range.mp hj)]

theorem triu_onesMatrix_length (d : ℤ) (L : ℕ) : (triu d (onesMatrix L)).length = L := by
  simp [triu, onesMatrix_length]

theorem notEye_getD (L i : ℕ) (hi : i < L) :
    (notMatrix (eyeMatrix L)).getD i [] =
      (List.range L).map fun j => !(decide (i = j)) := by
  rw [notMatrix, eyeMatrix, List.map_map]
  rw [getD_rangeMap L _ [] i hi]
  simp [Function.comp]

theorem notEye_length (L : ℕ) : (notMatrix (eyeMatrix L)).length = L := by
  simp [notMatrix, eyeMatrix]

theorem catDim1_getD (A B : List (List Bool)) (i : ℕ) (hA : i < A.length) (hB : i < B.length) :
    (catDim1 A B).getD i [] = A.getD i [] ++ B.getD i [] := by
  induction A generalizing B i with
  | nil => simp at hA
  | cons a as ih =>
    cases B with
    | nil => simp at hB
    | cons b bs =>
      cases i with
      | zero => simp [catDim1]
      | succ n =>
        simp only [catDim1, List.zipWith_cons_cons, List.getD_cons_succ]
        exact ih bs n (by simpa using hA) (by simpa using hB)

theorem catDim1_length (A B : List (List Bool)) :
    (catDim1 A B).length = min A.length B.length := by
  simp [catDim1]

theorem getD_append_left {α : Type} (A B : List α) (d : α) (i : ℕ) (h : i < A.length) :
    (A ++ B).getD i d = A.getD i d := by
  simp [List.getD_eq_getElem?_getD, List.getElem?_append, h]

theorem getD_append_right' {α : Type} (A B : List α) (d : α) (i : ℕ) (h : A.length ≤ i) :
    (A ++ B).getD i d = B.getD (i - A.length) d := by
  simp [List.getD_eq_getElem?_getD, List.getElem?_append_right h]

theorem triu_onesMatrix_row_length (d : ℤ) (L i : ℕ) (hi : i < L) :
    ((triu d (onesMatrix L)).getD i []).length = L := by
  rw [triu_onesMatrix_getD d L i hi]; simp

theorem onesMatrix_row_length (L i : ℕ) (hi : i < L) :
    ((onesMatrix L).getD i []).length = L := by
  rw [onesMatrix_getD L i hi]; simp

theorem notEye_row_length (L i : ℕ) (hi : i < L) :
    ((notMatrix (eyeMatrix L)).getD i []).length = L := by
  rw [notEye_getD L i hi]; simp

theorem get_arc_mask_false (L : ℕ) :
    get_arc_mask L false =
      catDim0 (catDim1 (triu 1 (onesMatrix L)) (onesMatrix L))
        (catDim1 (triu 0 (onesMatrix L)) (notMatrix (eyeMatrix L))) := rfl

theorem get_arc_mask_true (L : ℕ) :
    get_arc_mask L true =
      catDim1 (triu 0 (onesMatrix L)) (notMatrix (eyeMatrix L)) := rfl

theorem uncached_row_lo (L i : ℕ) (hi : i < L) :
    (get_arc_mask L false).getD i [] =
      (triu 1 (onesMatrix L)).getD i [] ++ (onesMatrix L).getD i [] := by
  rw [get_arc_mask_false, catDim0,
    getD_append_left _ _ _ i
      (by rw [catDim1_length, triu_onesMatrix_length, onesMatrix_length]; omega)]
  exact catDim1_getD _ _ i (by rw [triu_onesMatrix_length]; exact hi)
    (by rw [onesMatrix_length]; exact hi)

theorem uncached_row_hi (L i : ℕ) (hi : i < L) :
    (get_arc_mask L false).getD (L + i) [] =
      (triu 0 (onesMatrix L)).getD i [] ++ (notMatrix (eyeMatrix L)).getD i [] := by
  rw [get_arc_mask_false, catDim0,
    getD_append_right' _ _ _ (L + i)
      (by rw [catDim1_length, triu_onesMatrix_length, onesMatrix_length]; omega)]
  have hidx : L + i - (catDim1 (triu 1 (onesMatrix L)) (onesMatrix L)).length = i := by
    rw [catDim1_length, triu_onesMatrix_length, onesMatrix_length]; omega
  rw [hidx]
  exact catDim1_getD _ _ i (by rw [triu_onesMatrix_length]; exact hi)
    (by rw [notEye_length]; exact hi)

theorem cached_row (L i : ℕ) (hi : i < L) :
    (get_arc_mask L true).getD i [] =
      (triu 0 (onesMatrix L)).getD i [] ++ (notMatrix (eyeMatrix L)).getD i [] := by
  rw [get_arc_mask_true]
  exact catDim1_getD _ _ i (by rw [triu_onesMatrix_length]; exact hi)
    (by rw [notEye_length]; exact hi)

theorem triu_row_entry (d : ℤ) (L i j : ℕ) (hi : i < L) (hj : j < L) :
    ((triu d (onesMatrix L)).getD i []).getD j false = decide (d ≤ (j : ℤ) - (i : ℤ)) := by
  rw [triu_onesMatrix_getD d L i hi, getD_rangeMap L _ false j hj]
  simp

theorem notEye_row_entry (L i j : ℕ) (hi : i < L) (hj : j < L) :
    ((notMatrix (eyeMatrix L)).getD i []).getD j false = !(decide (i = j)) := by
  rw [notEye_getD L i hi, getD_rangeMap L _ false j hj]

theorem ones_row_entry (L i j : ℕ) (hi : i < L) (hj : j < L) :
    ((onesMatrix L).getD i []).getD j false = true := by
  rw [onesMatrix_getD L i hi]
  exact getD_replicate' L true false j hj

/-- C1: For every `L ≥ 1` the uncached-mode arc mask is a `2L × 2L` boolean
matrix whose four `L × L` quadrants are: top-left blocked exactly strictly
above the diagonal (causal), top-right fully blocked, bottom-left blocked on
and above the diagonal (cross-causal: second-half position `i` may attend to
first-half positions `j < i` only), and bottom-right blocked everywhere
except the diagonal (self only). -/
theorem arc_mask_uncached_quadrants (L i j : ℕ) (hL : 1 ≤ L) (hi : i < L) (hj : j < L) :
    (get_arc_mask L false).length = 2 * L ∧
    (∀ r, r < 2 * L → ((get_arc_mask L false).getD r []).length = 2 * L) ∧
    entry (get_arc_mask L false) i j = decide (i < j) ∧
    entry (get_arc_mask L false) i (L + j) = true ∧
    entry (get_arc_mask L false) (L + i) j = decide (i ≤ j) ∧
    entry (get_arc_mask L false) (L + i) (L + j) = decide (i ≠ j) := by
  refine ⟨?_, ?_, ?_, ?_, ?_, ?_⟩
  · rw [get_arc_mask_false, catDim0, List.length_append, catDim1_length, catDim1_length,
      triu_onesMatrix_length, triu_onesMatrix_length, onesMatrix_length, notEye_length]
    omega
  · intro r hr
    rcases Nat.lt_or_ge r L with h | h
    · rw [uncached_row_lo L r h, List.length_append,
        triu_onesMatrix_row_length 1 L r h, onesMatrix_row_length L r h]
      omega
    · obtain ⟨i', rfl⟩ : ∃ i', r = L + i' := ⟨r - L, by omega⟩
      have hi' : i' < L := by omega
      rw [uncached_row_hi L i' hi', List.length_append,
        triu_onesMatrix_row_length 0 L i' hi', notEye_row_length L i' hi']
      omega
  · rw [entry, uncached_row_lo L i hi,
      getD_append_left _ _ _ j (by rw [triu_onesMatrix_row_length 1 L i hi]; exact hj),
      triu_row_entry 1 L i j hi hj, decide_eq_decide]
    omega
  · rw [entry, uncached_row_lo L i hi,
      getD_append_right' _ _ _ (L + j) (by rw [triu_onesMatrix_row_length 1 L i hi]; omega),
      triu_onesMatrix_row_length 1 L i hi]
    have hidx : L + j - L = j := by omega
    rw [hidx]
    exact ones_row_entry L i j hi hj
  · rw [entry, uncached_row_hi L i hi,
      getD_append_left _ _ _ j (by rw [triu_onesMatrix_row_length 0 L i hi]; exact hj),
      triu_row_entry 0 L i j hi hj, decide_eq_decide]
    omega
  · rw [entry, uncached_row_hi L i hi,
      getD_append_right' _ _ _ (L + j) (by rw [triu_onesMatrix_row_length 0 L i hi]; omega),
      triu_onesMatrix_row_length 0 L i hi]
    have hidx : L + j - L = j := by omega
    rw [hidx, notEye_row_entry L i j hi hj]
    simp

/-- C1 witness at `L = 2`, `i = 0`, `j = 1`. -/
theorem arc_mask_uncached_quadrants_witness :
    1 ≤ 2 ∧ (0 : ℕ) < 2 ∧ (1 : ℕ) < 2 ∧
    ((get_arc_mask 2 false).length = 2 * 2 ∧
     (∀ r, r < 2 * 2 → ((get_arc_mask 2 false).getD r []).length = 2 * 2) ∧
     entry (get_arc_mask 2 false) 0 1 = decide ((0 : ℕ) < 1) ∧
     entry (get_arc_mask 2 false) 0 (2 + 1) = true ∧
     entry (get_arc_mask 2 false) (2 + 0) 1 = decide ((0 : ℕ) ≤ 1) ∧
     entry (get_arc_mask 2 false) (2 + 0) (2 + 1) = decide ((0 : ℕ) ≠ 1)) :=
  ⟨by decide, by decide, by decide,
   arc_mask_uncached_quadrants 2 0 1 (by decide) (by decide) (by decide)⟩

/-- C2: For every `L`, the cached-mode arc mask has `L` rows of length `2L`
(shape `[L, 2L]`); its row `i` allows attention to first-half (cached) column
`j` exactly when `j < i`, and to second-half column `L + j` exactly when
`j = i` — so arc position `i` attends only to genuine cached context strictly
before it and to its own injected token, never to the cached real token at
its own index or to any other arc position. -/
theorem arc_mask_cached_self_only (L i j : ℕ) (hi : i < L) (hj : j < L) :
    (get_arc_mask L true).length = L ∧
    (∀ r, r < L → ((get_arc_mask L true).getD r []).length = 2 * L) ∧
    (entry (get_arc_mask L true) i j = false ↔ j < i) ∧
    (entry (get_arc_mask L true) i (L + j) = false ↔ j = i) := by
  refine ⟨?_, ?_, ?_, ?_⟩
  · rw [get_arc_mask_true, catDim1_length, triu_onesMatrix_length, notEye_length]
    omega
  · intro r hr
    rw [cached_row L r hr, List.length_append,
      triu_onesMatrix_row_length 0 L r hr, notEye_row_length L r hr]
    omega
  · rw [entry, cached_row L i hi,
      getD_append_left _ _ _ j (by rw [triu_onesMatrix_row_length 0 L i hi]; exact hj),
      triu_row_entry 0 L i j hi hj]
    constructor
    · intro h
      have := of_decide_eq_false h
      omega
    · intro h
      apply decide_eq_false
      omega
  · rw [entry, cached_row L i hi,
      getD_append_right' _ _ _ (L + j) (by rw [triu_onesMatrix_row_length 0 L i hi]; omega),
      triu_onesMatrix_row_length 0 L i hi]
    have hidx : L + j - L = j := by omega
    rw [hidx, notEye_row_entry L i j hi hj]
    constructor
    · intro h
      have : decide (i = j) = true := by
        cases hb : decide (i = j) with
        | false => rw [hb] at h; simp at h
        | true => rfl
      exact (of_decide_eq_true this).symm
    · intro h
      subst h
      simp

/-- C2 witness at `L = 3`, `i = 2`, `j = 1`. -/
theorem arc_mask_cached_self_only_witness :
    (2 : ℕ) < 3 ∧ (1 : ℕ) < 3 ∧
    ((get_arc_mask 3 true).length = 3 ∧
     (∀ r, r < 3 → ((get_arc_mask 3 true).getD r []).length = 2 * 3) ∧
     (entry (get_arc_mask 3 true) 2 1 = false ↔ 1 < 2) ∧
     (entry (get_arc_mask 3 true) 2 (3 + 1) = false ↔ 1 = 2)) :=
  ⟨by decide, by decide, arc_mask_cached_self_only 3 2 1 (by decide) (by decide)⟩

/-! ### Basic length lemmas -/

theorem debugNegIds_length (l : List ℤ) : (debugNegIds l).length = l.length := by
  simp [debugNegIds, sliceAssign]

theorem arcIds_length (input_ids neg_ids : List ℤ)
    (h : neg_ids.length = input_ids.length) :
    (arcIds input_ids neg_ids).length = input_ids.length := by
  simp [arcIds, h]
  omega

theorem arcTargets_length (input_ids : List ℤ) (pad : ℤ) :
    (arcTargets input_ids pad).length = 2 * input_ids.length := by
  simp [arcTargets]
  omega

theorem arcPreds_length (s : List ℚ) : (arcPreds s).length = s.length := by
  simp [arcPreds]

theorem forward_neg_ids_length (score1 : List ℤ → List ℚ)
    (score2 : List ℤ → List ℤ → List ℚ) (sample : List ℤ → List ℤ)
    (input_ids : List ℤ) (pad : ℤ) (debug : Bool)
    (hs : (sample input_ids).length = input_ids.length) :
    (forward score1 score2 sample input_ids pad debug).neg_ids.length =
      input_ids.length := by
  cases debug with
  | false => simpa [forward] using hs
  | true => simp [forward, debugNegIds_length]

/-! ### Pointwise access lemmas -/

theorem getD_zipWith {α β γ : Type} (f : α → β → γ) (A : List α) (B : List β)
    (dA : α) (dB : β) (dC : γ) (i : ℕ) (hA : i < A.length) (hB : i < B.length) :
    (List.zipWith f A B).getD i dC = f (A.getD i dA) (B.getD i dB) := by
  induction A generalizing B i with
  | nil => simp at hA
  | cons a as ih =>
    cases B with
    | nil => simp at hB
    | cons b bs =>
      cases i with
      | zero => simp
      | succ n =>
        simp only [List.zipWith_cons_cons, List.getD_cons_succ]
        exact ih bs n (by simpa using hA) (by simpa using hB)

theorem getD_set {α : Type} (l : List α) (a : ℕ) (v d : α) (p : ℕ) :
    (l.set a v).getD p d = if a = p ∧ p < l.length then v else l.getD p d := by
  induction l generalizing a p with
  | nil => simp
  | cons x xs ih =>
    cases a with
    | zero =>
      cases p with
      | zero => simp
      | succ q => simp
    | succ b =>
      cases p with
      | zero => simp
      | succ q =>
        simp only [List.set_cons_succ, List.getD_cons_succ, List.length_cons]
        rw [ih b q]
        exact if_congr (by omega) rfl rfl

theorem getD_take {α : Type} (l : List α) (n i : ℕ) (d : α) (hi : i < n) :
    (l.take n).getD i d = l.getD i d := by
  simp [List.getD_eq_getElem?_getD, List.getElem?_take, hi]

theorem getD_drop {α : Type} (l : List α) (n i : ℕ) (d : α) :
    (l.drop n).getD i d = l.getD (n + i) d := by
  simp [List.getD_eq_getElem?_getD, List.getElem?_drop]

/-- Closed form of the per-position arc target: the pad fill is applied last
and wins; otherwise positions `0` and `L` are `-1`, the rest of the first half
is `0` and the rest of the second half is `1`. -/
theorem arcTargets_getD (input_ids : List ℤ) (pad : ℤ) (p : ℕ)
    (hL : 1 ≤ input_ids.length) (hp : p < 2 * input_ids.length) :
    (arcTargets input_ids pad).getD p 0 =
      if (input_ids ++ input_ids).getD p 0 = pad then -1
      else if p = 0 ∨ p = input_ids.length then -1
      else if p < input_ids.length then 0 else 1 := by
  have hbase : (List.replicate input_ids.length (0 : ℤ) ++
      List.replicate input_ids.length (1 : ℤ)).length = 2 * input_ids.length := by
    simp; omega
  rw [arcTargets]
  rw [getD_zipWith _ _ _ 0 0 0 p
    (by simp only [List.length_set]; omega)
    (by simp only [List.length_append]; omega)]
  by_cases hpad : (input_ids ++ input_ids).getD p 0 = pad
  · rw [if_pos hpad, if_pos hpad]
  · rw [if_neg hpad, if_neg hpad]
    rw [getD_set, getD_set]
    simp only [List.length_set, hbase]
    by_cases hpL : p = input_ids.length
    · rw [if_pos ⟨hpL.symm, by omega⟩, if_pos (Or.inr hpL)]
    · rw [if_neg (by omega)]
      by_cases hp0 : p = 0
      · rw [if_pos (by omega), if_pos (Or.inl hp0)]
      · rw [if_neg (by omega), if_neg (by omega)]
        by_cases hlt : p < input_ids.length
        · rw [if_pos hlt, getD_append_left _ _ _ p (by simp; omega),
            getD_replicate' _ _ _ p (by simpa using hlt)]
        · rw [if_neg hlt, getD_append_right' _ _ _ p (by simp; omega)]
          rw [getD_replicate' input_ids.length 1 0 _ (by simp; omega)]

theorem getD_dropLast {α : Type} (l : List α) (i : ℕ) (d : α) (h : i < l.length - 1) :
    l.dropLast.getD i d = l.getD i d := by
  rw [List.dropLast_eq_take]
  exact getD_take l (l.length - 1) i d h

/-- C3: the arc input sequence has the same shape as the input; its first
token is the input's first token and position `t ≥ 1` carries the negative
sampler's output at `t - 1`. -/
theorem arc_ids_construction (score1 : List ℤ → List ℚ)
    (score2 : List ℤ → List ℤ → List ℚ) (sample : List ℤ → List ℤ)
    (input_ids : List ℤ) (pad : ℤ) (debug : Bool)
    (hs : (sample input_ids).length = input_ids.length)
    (hL : 1 ≤ input_ids.length) :
    (forward score1 score2 sample input_ids pad debug).arc_ids.length =
      input_ids.length ∧
    (forward score1 score2 sample input_ids pad debug).arc_ids.getD 0 0 =
      input_ids.getD 0 0 ∧
    ∀ t, 1 ≤ t → t < input_ids.length →
      (forward score1 score2 sample input_ids pad debug).arc_ids.getD t 0 =
        (forward score1 score2 sample input_ids pad debug).neg_ids.getD (t - 1) 0 := by
  have hneg := forward_neg_ids_length score1 score2 sample input_ids pad debug hs
  have harc : (forward score1 score2 sample input_ids pad debug).arc_ids =
      arcIds input_ids (forward score1 score2 sample input_ids pad debug).neg_ids := rfl
  rw [harc]
  generalize (forward score1 score2 sample input_ids pad debug).neg_ids = neg at hneg
  have htake : (input_ids.take 1).length = 1 := by
    simp [List.length_take]; omega
  refine ⟨arcIds_length input_ids neg hneg, ?_, ?_⟩
  · rw [arcIds, getD_append_left _ _ _ 0 (by omega)]
    exact getD_take input_ids 1 0 0 (by omega)
  · intro t ht1 htL
    rw [arcIds, getD_append_right' _ _ _ t (by omega), htake]
    exact getD_dropLast neg (t - 1) 0 (by omega)

/-- C3 witness at `input_ids = [5, 6, 7]`. -/
theorem arc_ids_construction_witness :
    (testSample [5, 6, 7]).length = ([5, 6, 7] : List ℤ).length ∧
    1 ≤ ([5, 6, 7] : List ℤ).length ∧
    ((forward testScore1 testScore2 testSample [5, 6, 7] 0 false).arc_ids.length =
       ([5, 6, 7] : List ℤ).length ∧
     (forward testScore1 testScore2 testSample [5, 6, 7] 0 false).arc_ids.getD 0 0 =
       ([5, 6, 7] : List ℤ).getD 0 0 ∧
     ∀ t, 1 ≤ t → t < ([5, 6, 7] : List ℤ).length →
       (forward testScore1 testScore2 testSample [5, 6, 7] 0 false).arc_ids.getD t 0 =
         (forward testScore1 testScore2 testSample [5, 6, 7] 0 false).neg_ids.getD
           (t - 1) 0) :=
  ⟨by decide, by decide,
   arc_ids_construction testScore1 testScore2 testSample [5, 6, 7] 0 false
     (by decide) (by decide)⟩

/-- C4: with no pad token in the input, the arc targets label the first half
`0` (real) and the second half `1` (fake), except the two boundary positions
`0` and `L`, which carry the ignore label `-1`. -/
theorem arc_targets_labels (input_ids : List ℤ) (pad : ℤ)
    (hL : 1 ≤ input_ids.length) (hnp : ∀ x ∈ input_ids, x ≠ pad) :
    (arcTargets input_ids pad).length = 2 * input_ids.length ∧
    (arcTargets input_ids pad).getD 0 0 = -1 ∧
    (arcTargets input_ids pad).getD input_ids.length 0 = -1 ∧
    (∀ p, p < input_ids.length → p ≠ 0 → (arcTargets input_ids pad).getD p 0 = 0) ∧
    (∀ p, input_ids.length ≤ p → p < 2 * input_ids.length → p ≠ input_ids.length →
      (arcTargets input_ids pad).getD p 0 = 1) := by
  have hdbl : ∀ p, p < 2 * input_ids.length →
      ¬ (input_ids ++ input_ids).getD p 0 = pad := by
    intro p hp
    by_cases h : p < input_ids.length
    · rw [getD_append_left _ _ _ p h]
      refine hnp _ ?_
      rw [List.getD_eq_getElem?_getD, List.getElem?_eq_getElem h]
      simp only [Option.getD_some]
      exact List.getElem_mem h
    · rw [getD_append_right' _ _ _ p (by omega)]
      have h2 : p - input_ids.length < input_ids.length := by omega
      refine hnp _ ?_
      rw [List.getD_eq_getElem?_getD, List.getElem?_eq_getElem h2]
      simp only [Option.getD_some]
      exact List.getElem_mem h2
  refine ⟨arcTargets_length input_ids pad, ?_, ?_, ?_, ?_⟩
  · rw [arcTargets_getD input_ids pad 0 hL (by omega), if_neg (hdbl 0 (by omega)),
      if_pos (Or.inl rfl)]
  · rw [arcTargets_getD input_ids pad input_ids.length hL (by omega),
      if_neg (hdbl input_ids.length (by omega)), if_pos (Or.inr rfl)]
  · intro p hp hp0
    rw [arcTargets_getD input_ids pad p hL (by omega), if_neg (hdbl p (by omega)),
      if_neg (by omega), if_pos hp]
  · intro p hpl hpu hpL
    rw [arcTargets_getD input_ids pad p hL (by omega), if_neg (hdbl p (by omega)),
      if_neg (by omega), if_neg (by omega)]

/-- C4 witness at `input_ids = [5, 6, 7]`, `pad = 0`. -/
theorem arc_targets_labels_witness :
    1 ≤ ([5, 6, 7] : List ℤ).length ∧
    (∀ x ∈ ([5, 6, 7] : List ℤ), x ≠ 0) ∧
    ((arcTargets [5, 6, 7] 0).length = 2 * ([5, 6, 7] : List ℤ).length ∧
     (arcTargets [5, 6, 7] 0).getD 0 0 = -1 ∧
     (arcTargets [5, 6, 7] 0).getD ([5, 6, 7] : List ℤ).length 0 = -1 ∧
     (∀ p, p < ([5, 6, 7] : List ℤ).length → p ≠ 0 →
       (arcTargets [5, 6, 7] 0).getD p 0 = 0) ∧
     (∀ p, ([5, 6, 7] : List ℤ).length ≤ p → p < 2 * ([5, 6, 7] : List ℤ).length →
       p ≠ ([5, 6, 7] : List ℤ).length → (arcTargets [5, 6, 7] 0).getD p 0 = 1)) :=
  ⟨by decide, by decide, arc_targets_labels [5, 6, 7] 0 (by decide) (by decide)⟩

/-- C5: the boundary positions `0` and `L` always carry `-1`, every position
where the doubled original input equals the pad id carries `-1`, and the
target tensor is a function of the original input ids and pad id alone —
the pad check never consults the sampled negative ids. -/
theorem arc_targets_ignore_rules (input_ids : List ℤ) (pad : ℤ)
    (hL : 1 ≤ input_ids.length) :
    (arcTargets input_ids pad).getD 0 0 = -1 ∧
    (arcTargets input_ids pad).getD input_ids.length 0 = -1 ∧
    (∀ p, p < 2 * input_ids.length → (input_ids ++ input_ids).getD p 0 = pad →
      (arcTargets input_ids pad).getD p 0 = -1) ∧
    (∀ (score1 : List ℤ → List ℚ) (score2 : List ℤ → List ℤ → List ℚ)
       (sample : List ℤ → List ℤ) (debug : Bool),
      (forward score1 score2 sample input_ids pad debug).arc_targets =
        arcTargets input_ids pad) := by
  refine ⟨?_, ?_, ?_, fun _ _ _ _ => rfl⟩
  · rw [arcTargets_getD input_ids pad 0 hL (by omega)]
    by_cases h : (input_ids ++ input_ids).getD 0 0 = pad
    · rw [if_pos h]
    · rw [if_neg h, if_pos (Or.inl rfl)]
  · rw [arcTargets_getD input_ids pad input_ids.length hL (by omega)]
    by_cases h : (input_ids ++ input_ids).getD input_ids.length 0 = pad
    · rw [if_pos h]
    · rw [if_neg h, if_pos (Or.inr rfl)]
  · intro p hp hpad
    rw [arcTargets_getD input_ids pad p hL hp, if_pos hpad]

/-- C5 witness at `input_ids = [5, 6, 0, 7]`, `pad = 0` (one pad token). -/
theorem arc_targets_ignore_rules_witness :
    1 ≤ ([5, 6, 0, 7] : List ℤ).length ∧
    ((arcTargets [5, 6, 0, 7] 0).getD 0 0 = -1 ∧
     (arcTargets [5, 6, 0, 7] 0).getD ([5, 6, 0, 7] : List ℤ).length 0 = -1 ∧
     (∀ p, p < 2 * ([5, 6, 0, 7] : List ℤ).length →
       (([5, 6, 0, 7] : List ℤ) ++ [5, 6, 0, 7]).getD p 0 = 0 →
       (arcTargets [5, 6, 0, 7] 0).getD p 0 = -1) ∧
     (∀ (score1 : List ℤ → List ℚ) (score2 : List ℤ → List ℤ → List ℚ)
        (sample : List ℤ → List ℤ) (debug : Bool),
       (forward score1 score2 sample [5, 6, 0, 7] 0 debug).arc_targets =
         arcTargets [5, 6, 0, 7] 0)) :=
  ⟨by decide, arc_targets_ignore_rules [5, 6, 0, 7] 0 (by decide)⟩

/-- C6: when the backbone head and the sampler preserve sequence length, the
arc predictions have shape `[2L]` of score pairs (the pair type is the
trailing dimension of size 2) and the arc targets have shape `[2L]` with
every entry in `{-1, 0, 1}`. -/
theorem arc_output_shapes (score1 : List ℤ → List ℚ)
    (score2 : List ℤ → List ℤ → List ℚ) (sample : List ℤ → List ℤ)
    (input_ids : List ℤ) (pad : ℤ) (debug : Bool)
    (h1 : ∀ l, (score1 l).length = l.length)
    (h2 : ∀ c l, (score2 c l).length = l.length)
    (hs : (sample input_ids).length = input_ids.length)
    (hL : 1 ≤ input_ids.length) :
    (forward score1 score2 sample input_ids pad debug).arc_preds.length =
      2 * input_ids.length ∧
    (forward score1 score2 sample input_ids pad debug).arc_targets.length =
      2 * input_ids.length ∧
    ∀ p, p < 2 * input_ids.length →
      (forward score1 score2 sample input_ids pad debug).arc_targets.getD p 0 = -1 ∨
      (forward score1 score2 sample input_ids pad debug).arc_targets.getD p 0 = 0 ∨
      (forward score1 score2 sample input_ids pad debug).arc_targets.getD p 0 = 1 := by
  have hneg := forward_neg_ids_length score1 score2 sample input_ids pad debug hs
  have harcids : (forward score1 score2 sample input_ids pad debug).arc_ids.length =
      input_ids.length := by
    have harc : (forward score1 score2 sample input_ids pad debug).arc_ids =
        arcIds input_ids (forward score1 score2 sample input_ids pad debug).neg_ids :=
      rfl
    rw [harc]
    exact arcIds_length input_ids _ hneg
  refine ⟨?_, arcTargets_length input_ids pad, ?_⟩
  · have hpr : (forward score1 score2 sample input_ids pad debug).arc_preds =
        arcPreds (score1 input_ids ++
          score2 input_ids (forward score1 score2 sample input_ids pad debug).arc_ids) :=
      rfl
    rw [hpr, arcPreds_length, List.length_append, h1, h2, harcids]
    omega
  · intro p hp
    have htg : (forward score1 score2 sample input_ids pad debug).arc_targets =
        arcTargets input_ids pad := rfl
    rw [htg, arcTargets_getD input_ids pad p hL hp]
    by_cases hpad : (input_ids ++ input_ids).getD p 0 = pad
    · rw [if_pos hpad]; exact Or.inl rfl
    · rw [if_neg hpad]
      by_cases hb : p = 0 ∨ p = input_ids.length
      · rw [if_pos hb]; exact Or.inl rfl
      · rw [if_neg hb]
        by_cases hlt : p < input_ids.length
        · rw [if_pos hlt]; exact Or.inr (Or.inl rfl)
        · rw [if_neg hlt]; exact Or.inr (Or.inr rfl)

/-- C6 witness at `input_ids = [5, 6, 7]`. -/
theorem arc_output_shapes_witness :
    (∀ l : List ℤ, (testScore1 l).length = l.length) ∧
    (∀ (c l : List ℤ), (testScore2 c l).length = l.length) ∧
    (testSample [5, 6, 7]).length = ([5, 6, 7] : List ℤ).length ∧
    1 ≤ ([5, 6, 7] : List ℤ).length ∧
    ((forward testScore1 testScore2 testSample [5, 6, 7] 0 true).arc_preds.length =
       2 * ([5, 6, 7] : List ℤ).length ∧
     (forward testScore1 testScore2 testSample [5, 6, 7] 0 true).arc_targets.length =
       2 * ([5, 6, 7] : List ℤ).length ∧
     ∀ p, p < 2 * ([5, 6, 7] : List ℤ).length →
       (forward testScore1 testScore2 testSample [5, 6, 7] 0 true).arc_targets.getD
           p 0 = -1 ∨
       (forward testScore1 testScore2 testSample [5, 6, 7] 0 true).arc_targets.getD
           p 0 = 0 ∨
       (forward testScore1 testScore2 testSample [5, 6, 7] 0 true).arc_targets.getD
           p 0 = 1) :=
  ⟨fun l => by simp only [testScore1, List.length_replicate], fun c l => by simp only [testScore2, List.length_replicate], by decide, by decide,
   arc_output_shapes testScore1 testScore2 testSample [5, 6, 7] 0 true
     (fun l => by simp only [testScore1, List.length_replicate]) (fun c l => by simp only [testScore2, List.length_replicate])
     (by decide) (by decide)⟩

theorem arcPreds_getD (s : List ℚ) (p : ℕ) (hp : p < s.length) :
    (arcPreds s).getD p (0, 0) = (-(s.getD p 0) / 2, s.getD p 0 / 2) := by
  have hsp : s.getD p 0 = s.get ⟨p, hp⟩ := by
    rw [List.getD_eq_getElem?_getD, List.getElem?_eq_getElem hp]
    rfl
  rw [arcPreds, List.getD_eq_getElem?_getD, List.getElem?_map,
    List.getElem?_eq_getElem hp, hsp]
  rfl

/-- C7: every arc prediction entry is the signed pair `(-s/2, s/2)` built
from the scalar head output `s` at that position, so the two class scores at
every position sum to exactly zero. -/
theorem arc_preds_signed_pair (score1 : List ℤ → List ℚ)
    (score2 : List ℤ → List ℤ → List ℚ) (sample : List ℤ → List ℤ)
    (input_ids : List ℤ) (pad : ℤ) (debug : Bool) (p : ℕ)
    (hp : p < (score1 input_ids ++ score2 input_ids
      (forward score1 score2 sample input_ids pad debug).arc_ids).length) :
    (forward score1 score2 sample input_ids pad debug).arc_preds.getD p (0, 0) =
      (-((score1 input_ids ++ score2 input_ids
          (forward score1 score2 sample input_ids pad debug).arc_ids).getD p 0) / 2,
       ((score1 input_ids ++ score2 input_ids
          (forward score1 score2 sample input_ids pad debug).arc_ids).getD p 0) / 2) ∧
    ((forward score1 score2 sample input_ids pad debug).arc_preds.getD p (0, 0)).1 +
      ((forward score1 score2 sample input_ids pad debug).arc_preds.getD p (0, 0)).2 =
        0 := by
  have hpr : (forward score1 score2 sample input_ids pad debug).arc_preds =
      arcPreds (score1 input_ids ++ score2 input_ids
        (forward score1 score2 sample input_ids pad debug).arc_ids) := rfl
  rw [hpr, arcPreds_getD _ p hp]
  refine ⟨rfl, ?_⟩
  ring

/-- C7 witness at `input_ids = [5, 6, 7]`, position `p = 4`. -/
theorem arc_preds_signed_pair_witness :
    4 < (testScore1 [5, 6, 7] ++ testScore2 [5, 6, 7]
      (forward testScore1 testScore2 testSample [5, 6, 7] 0 false).arc_ids).length ∧
    ((forward testScore1 testScore2 testSample [5, 6, 7] 0 false).arc_preds.getD
        4 (0, 0) =
      (-((testScore1 [5, 6, 7] ++ testScore2 [5, 6, 7]
          (forward testScore1 testScore2 testSample [5, 6, 7] 0 false).arc_ids).getD
            4 0) / 2,
       ((testScore1 [5, 6, 7] ++ testScore2 [5, 6, 7]
          (forward testScore1 testScore2 testSample [5, 6, 7] 0 false).arc_ids).getD
            4 0) / 2) ∧
     ((forward testScore1 testScore2 testSample [5, 6, 7] 0 false).arc_preds.getD
           4 (0, 0)).1 +
       ((forward testScore1 testScore2 testSample [5, 6, 7] 0 false).arc_preds.getD
           4 (0, 0)).2 = 0) :=
  ⟨by decide,
   arc_preds_signed_pair testScore1 testScore2 testSample [5, 6, 7] 0 false 4
     (by decide)⟩

/-- C8: in debug mode the negative-sample sequence is a pure function of the
input — two forward calls with different sampler draws produce identical
`neg_ids` — and it equals the input shifted left by one at every position
`t < L - 1`. -/
theorem debug_mode_determinism (score1 : List ℤ → List ℚ)
    (score2 : List ℤ → List ℤ → List ℚ) (sample1 sample2 : List ℤ → List ℤ)
    (input_ids : List ℤ) (pad : ℤ) :
    (forward score1 score2 sample1 input_ids pad true).neg_ids =
      (forward score1 score2 sample2 input_ids pad true).neg_ids ∧
    ∀ t, t + 1 < input_ids.length →
      (forward score1 score2 sample1 input_ids pad true).neg_ids.getD t 0 =
        input_ids.getD (t + 1) 0 := by
  refine ⟨rfl, ?_⟩
  intro t ht
  have hneg : (forward score1 score2 sample1 input_ids pad true).neg_ids =
      debugNegIds input_ids := rfl
  rw [hneg, debugNegIds, sliceAssign,
    getD_append_left _ _ _ t (by simp [List.length_take]; omega),
    getD_take _ _ t _ (by omega), getD_drop]
  rw [Nat.add_comm]

/-- C8 witness at `input_ids = [5, 6, 7]`, two different samplers. -/
theorem debug_mode_determinism_witness :
    (forward testScore1 testScore2 testSample [5, 6, 7] 0 true).neg_ids =
      (forward testScore1 testScore2 (fun l => l.map fun x => x * 2)
        [5, 6, 7] 0 true).neg_ids ∧
    ∀ t, t + 1 < ([5, 6, 7] : List ℤ).length →
      (forward testScore1 testScore2 testSample [5, 6, 7] 0 true).neg_ids.getD t 0 =
        ([5, 6, 7] : List ℤ).getD (t + 1) 0 :=
  debug_mode_determinism testScore1 testScore2 testSample
    (fun l => l.map fun x => x * 2) [5, 6, 7] 0

/-- C9: the negative-sampling block never mutates the caller's `input_ids`
tensor: in the non-debug branch the sampled `neg_ids` is freshly allocated,
and in the debug branch the left-shift is applied in place only to a freshly
allocated copy — the value at the input's heap address is unchanged in both
modes, and the final `neg_ids` value is the sampled draw (non-debug) or the
shifted copy (debug). -/
theorem neg_sampler_no_mutation (h : Heap) (inputAddr : ℕ) (sampled : List ℤ)
    (debug : Bool) (hin : inputAddr < h.length) :
    heapRead (negSampleStep h inputAddr sampled debug).2 inputAddr =
      heapRead h inputAddr ∧
    heapRead (negSampleStep h inputAddr sampled debug).2
        (negSampleStep h inputAddr sampled debug).1 =
      (if debug then debugNegIds (heapRead h inputAddr) else sampled) := by
  cases debug with
  | false =>
    constructor
    · show (h ++ [sampled]).getD inputAddr [] = h.getD inputAddr []
      exact getD_append_left _ _ _ inputAddr hin
    · show (h ++ [sampled]).getD h.length [] = sampled
      rw [getD_append_right' _ _ _ h.length (le_refl _)]
      simp
  | true =>
    have hv : heapRead (h ++ [sampled]) inputAddr = heapRead h inputAddr :=
      getD_append_left _ _ _ inputAddr hin
    have hcur : heapRead ((h ++ [sampled]) ++ [heapRead (h ++ [sampled]) inputAddr])
        (h.length + 1) = heapRead h inputAddr := by
      rw [heapRead, getD_append_right' _ _ _ (h.length + 1) (by simp)]
      simp [hv]
    have hv2 : heapRead ((h ++ [sampled]) ++ [heapRead (h ++ [sampled]) inputAddr])
        inputAddr = heapRead h inputAddr := by
      rw [heapRead, getD_append_left _ _ _ inputAddr (by simp; omega)]
      exact hv
    have hfst : (negSampleStep h inputAddr sampled true).1 = h.length + 1 := by
      simp [negSampleStep, heapAlloc]
    have hsnd : (negSampleStep h inputAddr sampled true).2 =
        heapWrite ((h ++ [sampled]) ++ [heapRead (h ++ [sampled]) inputAddr])
          (h.length + 1)
          (sliceAssign
            (heapRead ((h ++ [sampled]) ++ [heapRead (h ++ [sampled]) inputAddr])
              (h.length + 1))
            ((heapRead ((h ++ [sampled]) ++ [heapRead (h ++ [sampled]) inputAddr])
              inputAddr).drop 1)
            ((heapRead ((h ++ [sampled]) ++ [heapRead (h ++ [sampled]) inputAddr])
              (h.length + 1)).length - 1)) := by
      simp [negSampleStep, heapAlloc]
    rw [hfst, hsnd, hcur, hv2]
    simp only [heapRead, heapWrite]
    constructor
    · rw [getD_set]
      rw [if_neg (by omega)]
      exact hv2
    · rw [getD_set]
      rw [if_pos ⟨rfl, by simp⟩]
      rfl

/-- C9 witness: heap holding one input tensor `[5, 6, 7]` at address 0,
sampled draw `[9, 8, 9]`, debug mode. -/
theorem neg_sampler_no_mutation_witness :
    (0 : ℕ) < ([[5, 6, 7]] : Heap).length ∧
    (heapRead (negSampleStep [[5, 6, 7]] 0 [9, 8, 9] true).2 0 =
       heapRead [[5, 6, 7]] 0 ∧
     heapRead (negSampleStep [[5, 6, 7]] 0 [9, 8, 9] true).2
         (negSampleStep [[5, 6, 7]] 0 [9, 8, 9] true).1 =
       (if true then debugNegIds (heapRead [[5, 6, 7]] 0) else [9, 8, 9])) :=
  ⟨by decide, neg_sampler_no_mutation [[5, 6, 7]] 0 [9, 8, 9] true (by decide)⟩

theorem arcIds_debugNegIds (l : List ℤ) (hL : 1 ≤ l.length) :
    arcIds l (debugNegIds l) = l := by
  have htake : (l.drop 1).take (l.length - 1) = l.drop 1 :=
    List.take_of_length_le (by simp)
  have hneg : debugNegIds l = l.drop 1 ++ l.drop (l.length - 1) := by
    rw [debugNegIds, sliceAssign, htake]
  have hlen : (l.drop 1 ++ l.drop (l.length - 1)).length = l.length := by
    simp
  rw [arcIds, hneg, List.dropLast_eq_take, hlen]
  rw [List.take_left' (by simp)]
  exact List.take_append_drop 1 l

/-- C10 (implicit): in debug mode the constructed arc input sequence equals
the original input exactly — prepending the first real token to the
left-shifted negatives and dropping the last element recovers the input, so
the second pass re-scores the genuine continuation itself. -/
theorem debug_arc_ids_roundtrip (score1 : List ℤ → List ℚ)
    (score2 : List ℤ → List ℤ → List ℚ) (sample : List ℤ → List ℤ)
    (input_ids : List ℤ) (pad : ℤ) (hL : 1 ≤ input_ids.length) :
    (forward score1 score2 sample input_ids pad true).arc_ids = input_ids := by
  have harc : (forward score1 score2 sample input_ids pad true).arc_ids =
      arcIds input_ids (debugNegIds input_ids) := rfl
  rw [harc]
  exact arcIds_debugNegIds input_ids hL

/-- C10 witness at `input_ids = [5, 6, 7]`. -/
theorem debug_arc_ids_roundtrip_witness :
    1 ≤ ([5, 6, 7] : List ℤ).length ∧
    (forward testScore1 testScore2 testSample [5, 6, 7] 0 true).arc_ids =
      [5, 6, 7] :=
  ⟨by decide,
   debug_arc_ids_roundtrip testScore1 testScore2 testSample [5, 6, 7] 0 (by decide)⟩

end Arc
